import Mathlib

/-!
Shallow embedding of the adaptivity control loops of the hermes-tutorial
examples `D-adaptivity/05-hcurl/main.cpp` (static hp-adaptivity) and
`D-adaptivity/08-transient-space-only/main.cpp` (spatial adaptivity nested
in a time-stepping loop).

The external library collaborators (reference-space construction, the
Newton and Runge-Kutta solvers, the orthogonal projection, the error
calculator and the refinement selector) are modelled as oracle functions
collected in an environment record; the control flow of `main` — the order
of the calls, the exception handling, the stopping decisions, the graph
records and the mutation of the working space — is translated statement by
statement from the source.  Real-valued quantities (error percentages,
coefficient values, times) are modelled as rationals; machine integers as
naturals.  The constant `NDOF_STOP` is referenced by both programs but
declared in repository code outside the visible sources, so the degree-of-
freedom ceiling is a parameter of the embedded loops.
-/

/-- Coefficient vectors over the degrees of freedom of a space. -/
abbrev Vec := List ℚ

/-- Per-element error values stored inside an `Adapt` object by the error
calculation and consumed by the refinement selection. -/
abbrev ErrData := List ℚ

/-- Messages printed by the programs, abstracted from their format strings. -/
inductive LogEntry where
  | solverExc : LogEntry
  | errEstInfo : ℚ → LogEntry
  | tsInfo : ℕ → ℕ → LogEntry
  | rkExc : LogEntry
  | ndofInfo : ℕ → ℕ → ℚ → LogEntry
  | adaptingInfo : LogEntry
  | derefInfo : LogEntry
  deriving Repr, DecidableEq

/-- Outcome of one invocation of an external solver: `ok = false` models a
thrown `Hermes::Exceptions::Exception`, and `slnVec` is the coefficient
vector the solver last produced (`newton.get_sln_vector()` respectively the
contents of `sln_time_new` after the call), available in either case. -/
structure SolveOutcome where
  ok : Bool
  slnVec : Vec
  deriving Repr, DecidableEq

namespace Hcurl

/-- Initial polynomial degree (`const int P_INIT = 2` in 05-hcurl). -/
def P_INIT : ℕ := 2

/-- Number of initial uniform mesh refinements (`INIT_REF_NUM = 1`). -/
def INIT_REF_NUM : ℕ := 1

/-- Parameter influencing the candidate selection (`THRESHOLD = 0.3`). -/
def THRESHOLD : ℚ := 3 / 10

/-- Stopping criterion for adaptivity in percent (`ERR_STOP = 1.0`). -/
def ERR_STOP : ℚ := 1

/-- Result of `adaptivity.adapt(&selector)`: the returned boolean signal
(`true` means no refinement possible / already converged) together with the
degree-of-freedom count of the working space after the committed
refinements (unchanged when nothing was refined). -/
structure AdaptOutcome where
  doneSignal : Bool
  ndofAfter : ℕ
  deriving Repr, DecidableEq

/-- Oracles for the external collaborators of the 05-hcurl main loop, each
indexed by the adaptivity step at which it is invoked. -/
structure HcurlEnv where
  /-- Degrees of freedom of the reference space built from a working space
  with the given degree-of-freedom count. -/
  ndofRef : ℕ → ℕ → ℕ
  /-- The Newton solver, applied to the initial coefficient vector. -/
  solve : ℕ → Vec → SolveOutcome
  /-- Orthogonal projection of the reference solution onto the working
  space (`ogProjection.project_global`). -/
  project : ℕ → Vec → Vec
  /-- Global relative error estimate in percent
  (`adaptivity->calc_err_est(sln, ref_sln) * 100`). -/
  errEst : ℕ → Vec → Vec → ℚ
  /-- Per-element error data stored in the `Adapt` object by
  `calc_err_est`, later consumed by `adapt`. -/
  errEstData : ℕ → Vec → Vec → ErrData
  /-- Global relative exact error in percent
  (`adaptivity->calc_err_exact(sln, sln_exact, false) * 100`). -/
  errExact : ℕ → Vec → ℚ
  /-- Per-element error data that `calc_err_exact` would store were it
  called with `solutions_for_adapt = true`. -/
  errExactData : ℕ → Vec → ErrData
  /-- The refinement step `adaptivity.adapt(&selector)`, consuming the
  per-element error data held by the `Adapt` object. -/
  adapt : ℕ → ℕ → ErrData → AdaptOutcome

/-- The mutable state of the 05-hcurl main loop that is observable across
iterations: the working space's degree-of-freedom count, the step counter
`as`, the `done` flag, the four convergence graphs, the printed messages,
and bookkeeping of the reference builds and solver invocations. -/
structure HcurlState where
  ndof : ℕ
  as : ℕ
  done : Bool
  graphDofEst : List (ℕ × ℚ)
  graphDofExact : List (ℕ × ℚ)
  graphCpuEst : List (ℚ × ℚ)
  graphCpuExact : List (ℚ × ℚ)
  log : List LogEntry
  refBuilds : ℕ
  solveCalls : List (ℕ × Vec)
  refSln : Vec
  sln : Vec
  deriving Repr, DecidableEq

/-- Translation of `Adapt::calc_err_exact(sln, sln_exact,
solutions_for_adapt)`: returns the exact error value and, only when
`solutions_for_adapt` is true, replaces the per-element error data held by
the `Adapt` object (the call site in 05-hcurl passes `false`). -/
def calc_err_exact (solutions_for_adapt : Bool) (errVal : ℚ)
    (exactData cur : ErrData) : ℚ × ErrData :=
  (errVal, if solutions_for_adapt then exactData else cur)

/-- Lines 174-183 of 05-hcurl `main.cpp`: the stopping decision of one
adaptivity step.  Given the working space's degree-of-freedom count, the
step counter `as`, the error estimate and the per-element error data held
by the `Adapt` object, it returns the new degree-of-freedom count, the new
step counter and the `done` flag: `done` is set when the error estimate is
below `ERR_STOP` or when the refinement step reports convergence, and —
unconditionally last — when the degree-of-freedom count has reached
`NDOF_STOP`. -/
def stoppingDecision (NDOF_STOP : ℕ) (env : HcurlEnv) (i : ℕ)
    (ndof as : ℕ) (err : ℚ) (d : ErrData) : ℕ × ℕ × Bool :=
  let branch :=
    if err < ERR_STOP then (ndof, as, true)
    else
      let a := env.adapt i ndof d
      (a.ndofAfter, if a.doneSignal then as else as + 1, a.doneSignal)
  (branch.1, branch.2.1, branch.2.2 || decide (NDOF_STOP ≤ branch.1))

/-- One iteration of the 05-hcurl do-while adaptivity loop (lines 116-189
of `main.cpp`), with the degree-of-freedom ceiling `NDOF_STOP` passed as the
first argument. -/
def hcurlStep (NDOF_STOP : ℕ) (env : HcurlEnv) (i : ℕ) (s : HcurlState) :
    HcurlState :=
  let ndof_ref := env.ndofRef i s.ndof
  let coeff_vec : Vec := List.replicate ndof_ref 0
  let sres := env.solve i coeff_vec
  let log1 := if sres.ok then s.log else s.log ++ [LogEntry.solverExc]
  let ref_sln := sres.slnVec
  let sln := env.project i ref_sln
  let err_est_rel := env.errEst i sln ref_sln
  let errData := env.errEstData i sln ref_sln
  let log2 := log1 ++ [LogEntry.errEstInfo err_est_rel]
  let ex := calc_err_exact false (env.errExact i sln)
    (env.errExactData i sln) errData
  let err_exact_rel := ex.1
  let errData2 := ex.2
  let gDofEst := s.graphDofEst ++ [(s.ndof, err_est_rel)]
  let gDofExact := s.graphDofExact ++ [(s.ndof, err_exact_rel)]
  let dec := stoppingDecision NDOF_STOP env i s.ndof s.as err_est_rel errData2
  { ndof := dec.1, as := dec.2.1, done := dec.2.2,
    graphDofEst := gDofEst, graphDofExact := gDofExact,
    graphCpuEst := s.graphCpuEst, graphCpuExact := s.graphCpuExact,
    log := log2, refBuilds := s.refBuilds + 1,
    solveCalls := s.solveCalls ++ [(ndof_ref, coeff_vec)],
    refSln := ref_sln, sln := sln }

/-- The 05-hcurl do-while adaptivity loop: run one iteration, stop when
`done` was set, otherwise continue with the next step index; the fuel
argument bounds the number of iterations. -/
def hcurlLoop (NDOF_STOP : ℕ) (env : HcurlEnv) :
    ℕ → ℕ → HcurlState → HcurlState
  | 0, _, s => s
  | fuel + 1, i, s =>
    let s2 := hcurlStep NDOF_STOP env i s
    if s2.done then s2 else hcurlLoop NDOF_STOP env fuel (i + 1) s2

/-- The state of `main` when the adaptivity loop is first entered
(`int as = 1; bool done = false;` with empty graphs), for a working space
with `n` degrees of freedom. -/
def initState (n : ℕ) : HcurlState :=
  { ndof := n, as := 1, done := false,
    graphDofEst := [], graphDofExact := [],
    graphCpuEst := [], graphCpuExact := [],
    log := [], refBuilds := 0, solveCalls := [],
    refSln := [], sln := [] }

/-- The error estimate computed inside `hcurlStep` at step `i` from state
`s`, before the stopping decision reads it. -/
def stepErrEst (env : HcurlEnv) (i : ℕ) (s : HcurlState) : ℚ :=
  let sres := env.solve i (List.replicate (env.ndofRef i s.ndof) 0)
  env.errEst i (env.project i sres.slnVec) sres.slnVec

/-- The exact error computed inside `hcurlStep` at step `i` from state
`s`; it is written only to the exact-error convergence graph. -/
def stepErrExact (env : HcurlEnv) (i : ℕ) (s : HcurlState) : ℚ :=
  let sres := env.solve i (List.replicate (env.ndofRef i s.ndof) 0)
  env.errExact i (env.project i sres.slnVec)

/-- The per-element error data held by the `Adapt` object inside
`hcurlStep` at step `i` from state `s` when `adapt` is reached. -/
def stepErrData (env : HcurlEnv) (i : ℕ) (s : HcurlState) : ErrData :=
  let sres := env.solve i (List.replicate (env.ndofRef i s.ndof) 0)
  env.errEstData i (env.project i sres.slnVec) sres.slnVec

/-- The converged signal returned by `adaptivity.adapt(&selector)` inside
`hcurlStep` at step `i` from state `s` (consulted only when the error
estimate is at or above `ERR_STOP`). -/
def stepAdaptSignal (env : HcurlEnv) (i : ℕ) (s : HcurlState) : Bool :=
  (env.adapt i s.ndof (stepErrData env i s)).doneSignal


end Hcurl

namespace Transient

/-- Initial polynomial degree of all mesh elements (`P_INIT = 2`). -/
def P_INIT : ℕ := 2

/-- Number of initial uniform mesh refinements (`INIT_REF_NUM = 2`). -/
def INIT_REF_NUM : ℕ := 2

/-- Fixed time step (`double time_step = 0.05`). -/
def time_step : ℚ := 1 / 20

/-- Time interval length (`T_FINAL = 2.0`). -/
def T_FINAL : ℚ := 2

/-- Every `UNREF_FREQ`-th time step the mesh is derefined (`UNREF_FREQ = 1`). -/
def UNREF_FREQ : ℕ := 1

/-- Derefinement policy selector (`UNREF_METHOD = 3`): one refinement layer
shaved off and polynomial degrees decreased by one. -/
def UNREF_METHOD : ℕ := 3

/-- Stopping criterion for adaptivity in percent (`ERR_STOP = 1.0`). -/
def ERR_STOP : ℚ := 1

/-- The working discretization of the transient driver: the per-element
polynomial degrees of the space together with its degree-of-freedom count. -/
structure WorkSpace where
  degs : List ℕ
  ndof : ℕ
  deriving Repr, DecidableEq

/-- Result of `adaptivity.adapt(&selector)` in the transient driver: the
converged signal and the working discretization after the committed
refinements. -/
structure AdaptOutcomeT where
  doneSignal : Bool
  wsAfter : WorkSpace
  deriving Repr, DecidableEq

/-- Oracles for the external collaborators of the transient driver;
spatially varying data is indexed by the time step `ts` and the adaptivity
step `as` at which the call happens. -/
structure TransEnv where
  /-- Number of elements of the base mesh (`basemesh`). -/
  baseElems : ℕ
  /-- Modelled from the spec: `Mesh::unrefine_all_elements` undoes one
  layer of geometric refinement (the library implementation is not among
  the visible sources); the oracle maps the per-element degrees of the
  space to the degrees carried by the coarsened element list. -/
  unrefineDegs : List ℕ → List ℕ
  /-- Degree-of-freedom count assigned by `Space::assign_dofs` /
  `Space::get_num_dofs` to a space with the given element degrees. -/
  ndofOf : List ℕ → ℕ
  /-- Degrees of freedom of the reference space built from the working
  discretization. -/
  ndofRef : ℕ → ℕ → WorkSpace → ℕ
  /-- One Runge-Kutta time step (`rk_time_step_newton`), reading the
  previous-time-level solution and producing the new-time-level one. -/
  rkSolve : ℕ → ℕ → Vec → SolveOutcome
  /-- Orthogonal projection of the fine-mesh solution onto the coarse
  mesh (`OGProjection::project_global`). -/
  project : ℕ → ℕ → WorkSpace → Vec → Vec
  /-- Global relative error estimate in percent
  (`adaptivity->calc_err_est(sln_coarse, sln_time_new) * 100`). -/
  errEst : ℕ → ℕ → Vec → Vec → ℚ
  /-- The refinement step `adaptivity.adapt(&selector)` on the working
  discretization, given the coarse and fine solutions it compares. -/
  adapt : ℕ → ℕ → WorkSpace → Vec → Vec → AdaptOutcomeT

/-- Translation of `Space::set_uniform_order(p)`: every element of the
space receives polynomial degree `p`. -/
def set_uniform_order (p : ℕ) (degs : List ℕ) : List ℕ :=
  degs.map fun _ => p

/-- Modelled from the spec: `Space::adjust_element_order(dh, dv, minh,
minv)` (library implementation not among the visible sources) shifts each
element's degree by the given increment, bounded below by the given
minimum degree — the spec describes policy 3 as "undo one layer of
geometric refinement, decrement degree by one (bounded below by the base
degree)".  The embedding keeps one degree per element, so the horizontal
and vertical arguments coincide. -/
def adjust_element_order (orderChange : ℤ) (minOrder : ℕ)
    (degs : List ℕ) : List ℕ :=
  degs.map fun d => max ((d : ℤ) + orderChange).toNat minOrder

/-- The periodic global derefinement switch of the transient driver
(lines 144-161 of `08-transient-space-only/main.cpp`), followed by the
re-assignment of degrees of freedom (`space->assign_dofs()`). -/
def derefineSpace (env : TransEnv) (method : ℕ) (ws : WorkSpace) :
    WorkSpace :=
  let degs :=
    match method with
    | 1 => List.replicate env.baseElems P_INIT
    | 2 => set_uniform_order P_INIT (env.unrefineDegs ws.degs)
    | 3 => adjust_element_order (-1) P_INIT (env.unrefineDegs ws.degs)
    | _ => ws.degs
  { degs := degs, ndof := env.ndofOf degs }

/-- The state of the spatial adaptivity loop of one time step: the working
discretization, the two solution fields shared with the outer driver, the
`done` flag and step counter, and bookkeeping of the reference builds
(`refCalls` records the working discretization at each reference build)
and of the writes to the previous-time-level solution. -/
structure AdaptState where
  ws : WorkSpace
  slnTimePrev : Vec
  slnTimeNew : Vec
  done : Bool
  as : ℕ
  refBuilds : ℕ
  refCalls : List WorkSpace
  prevWrites : ℕ
  log : List LogEntry
  deriving Repr, DecidableEq

/-- One iteration of the spatial adaptivity loop of the transient driver
(lines 173-238 of `08-transient-space-only/main.cpp`), with the
degree-of-freedom ceiling `NDOF_STOP` passed as the first argument. -/
def transStep (NDOF_STOP : ℕ) (env : TransEnv) (ts i : ℕ)
    (st : AdaptState) : AdaptState :=
  let log1 := st.log ++ [LogEntry.tsInfo ts st.as]
  let ndof_ref := env.ndofRef ts i st.ws
  let refCalls := st.refCalls ++ [st.ws]
  let sres := env.rkSolve ts i st.slnTimePrev
  let log2 := if sres.ok then log1 else log1 ++ [LogEntry.rkExc]
  let sln_time_new := sres.slnVec
  let sln_coarse := env.project ts i st.ws sln_time_new
  let err_est_rel_total := env.errEst ts i sln_coarse sln_time_new
  let log3 := log2 ++ [LogEntry.ndofInfo st.ws.ndof ndof_ref err_est_rel_total]
  if err_est_rel_total < ERR_STOP then
    { st with
      slnTimeNew := sln_time_new
      done := true
      refBuilds := st.refBuilds + 1
      refCalls := refCalls
      log := log3 }
  else
    let a := env.adapt ts i st.ws sln_coarse sln_time_new
    let log4 := log3 ++ [LogEntry.adaptingInfo]
    if NDOF_STOP ≤ a.wsAfter.ndof then
      { ws := a.wsAfter
        slnTimePrev := st.slnTimePrev
        slnTimeNew := sln_time_new
        done := true
        as := st.as
        refBuilds := st.refBuilds + 1
        refCalls := refCalls
        prevWrites := st.prevWrites
        log := log4 }
    else
      { ws := a.wsAfter
        slnTimePrev := st.slnTimePrev
        slnTimeNew := sln_time_new
        done := a.doneSignal
        as := st.as + 1
        refBuilds := st.refBuilds + 1
        refCalls := refCalls
        prevWrites := st.prevWrites
        log := log4 }

/-- The do-while spatial adaptivity loop of one time step, fuel-bounded. -/
def adaptLoop (NDOF_STOP : ℕ) (env : TransEnv) (ts : ℕ) :
    ℕ → ℕ → AdaptState → AdaptState
  | 0, _, st => st
  | fuel + 1, i, st =>
    let st2 := transStep NDOF_STOP env ts i st
    if st2.done then st2 else adaptLoop NDOF_STOP env ts fuel (i + 1) st2

/-- The state of the outer time-stepping loop that is carried across time
steps: the working discretization, the previous- and new-time-level
solutions, the current time and time-step counter, `ndof_coarse`, and
bookkeeping of derefinements, reference builds and writes to the
previous-time-level solution. -/
structure TransState where
  ws : WorkSpace
  slnTimePrev : Vec
  slnTimeNew : Vec
  currentTime : ℚ
  ts : ℕ
  ndofCoarse : ℕ
  derefCount : ℕ
  prevWrites : ℕ
  refCalls : List WorkSpace
  log : List LogEntry
  deriving Repr, DecidableEq

/-- Whether the periodic global derefinement fires at time step `ts`:
the source guard is `if (ts > 1 && ts % UNREF_FREQ == 0)`. -/
def derefTriggered (ts : ℕ) : Bool :=
  decide (1 < ts) && decide (ts % UNREF_FREQ = 0)

/-- The state with which the spatial adaptivity loop of one time step is
entered (`bool done = false; int as = 1;`), after the periodic global
derefinement has or has not fired. -/
def mkAdaptState (env : TransEnv) (S : TransState) : AdaptState :=
  let doDeref := derefTriggered S.ts
  let ws0 := if doDeref then derefineSpace env UNREF_METHOD S.ws else S.ws
  let log0 := if doDeref then S.log ++ [LogEntry.derefInfo] else S.log
  { ws := ws0, slnTimePrev := S.slnTimePrev, slnTimeNew := S.slnTimeNew,
    done := false, as := 1, refBuilds := 0, refCalls := [],
    prevWrites := S.prevWrites, log := log0 }

/-- One iteration of the outer time-stepping loop (lines 138-246 of
`08-transient-space-only/main.cpp`): periodic global derefinement, the
spatial adaptivity loop, the copy of the converged solution into the
previous-time-level field (`sln_time_prev->copy(sln_time_new)`), and the
advance of time and step counter. -/
def timeStep (NDOF_STOP : ℕ) (env : TransEnv) (fuel : ℕ)
    (S : TransState) : TransState :=
  let doDeref := derefTriggered S.ts
  let st0 := mkAdaptState env S
  let dc := if doDeref then S.derefCount + 1 else S.derefCount
  let nd0 := if doDeref then st0.ws.ndof else S.ndofCoarse
  let stf := adaptLoop NDOF_STOP env S.ts fuel 1 st0
  { ws := stf.ws, slnTimePrev := stf.slnTimeNew,
    slnTimeNew := stf.slnTimeNew,
    currentTime := S.currentTime + time_step, ts := S.ts + 1,
    ndofCoarse := nd0, derefCount := dc,
    prevWrites := stf.prevWrites + 1,
    refCalls := S.refCalls ++ stf.refCalls, log := stf.log }

end Transient

namespace Transient

/-- The error estimate computed inside `transStep` at time step `ts`,
adaptivity step `i`, from state `st`. -/
def stepErrT (env : TransEnv) (ts i : ℕ) (st : AdaptState) : ℚ :=
  let sres := env.rkSolve ts i st.slnTimePrev
  env.errEst ts i (env.project ts i st.ws sres.slnVec) sres.slnVec

/-- The refinement-step outcome consulted inside `transStep` when the
error estimate is at or above `ERR_STOP`. -/
def stepAdaptT (env : TransEnv) (ts i : ℕ) (st : AdaptState) :
    AdaptOutcomeT :=
  let sres := env.rkSolve ts i st.slnTimePrev
  env.adapt ts i st.ws (env.project ts i st.ws sres.slnVec) sres.slnVec

/-- Equality of two spatial-adaptivity states on every field except the
printed log. -/
def EqExceptLogT (s t : AdaptState) : Prop :=
  s.ws = t.ws ∧ s.slnTimePrev = t.slnTimePrev ∧ s.slnTimeNew = t.slnTimeNew ∧
  s.done = t.done ∧ s.as = t.as ∧ s.refBuilds = t.refBuilds ∧
  s.refCalls = t.refCalls ∧ s.prevWrites = t.prevWrites

/-- Replace the Runge-Kutta solver oracle of a transient environment. -/
def withRkSolve (env : TransEnv) (f : ℕ → ℕ → Vec → SolveOutcome) :
    TransEnv :=
  { env with rkSolve := f }

end Transient

namespace Hcurl

/-- Equality of two 05-hcurl loop states on every field except the printed
log: same working-space size, same counters and flags, same convergence
graphs, same recorded solver calls and solutions. -/
def EqExceptLog (s t : HcurlState) : Prop :=
  s.ndof = t.ndof ∧ s.as = t.as ∧ s.done = t.done ∧
  s.graphDofEst = t.graphDofEst ∧ s.graphDofExact = t.graphDofExact ∧
  s.graphCpuEst = t.graphCpuEst ∧ s.graphCpuExact = t.graphCpuExact ∧
  s.refBuilds = t.refBuilds ∧ s.solveCalls = t.solveCalls ∧
  s.refSln = t.refSln ∧ s.sln = t.sln

/-- Equality of two 05-hcurl loop states on every field except the
exact-error convergence graph. -/
def EqExceptGraphExact (s t : HcurlState) : Prop :=
  s.ndof = t.ndof ∧ s.as = t.as ∧ s.done = t.done ∧
  s.graphDofEst = t.graphDofEst ∧
  s.graphCpuEst = t.graphCpuEst ∧ s.graphCpuExact = t.graphCpuExact ∧
  s.log = t.log ∧
  s.refBuilds = t.refBuilds ∧ s.solveCalls = t.solveCalls ∧
  s.refSln = t.refSln ∧ s.sln = t.sln

/-- Replace the Newton-solver oracle of an environment. -/
def withSolve (env : HcurlEnv) (f : ℕ → Vec → SolveOutcome) : HcurlEnv :=
  { env with solve := f }

/-- Replace the exact-solution error oracles of an environment (the data
derived from the externally supplied analytic solution). -/
def withExact (env : HcurlEnv) (ex : ℕ → Vec → ℚ)
    (exd : ℕ → Vec → ErrData) : HcurlEnv :=
  { env with errExact := ex, errExactData := exd }

/-- The degree-of-freedom column of a convergence graph. -/
def dofCol (g : List (ℕ × ℚ)) : List ℕ :=
  g.map Prod.fst

/-- Invariant tying a state's estimated-error convergence graph to its
working space: the degree-of-freedom column is sorted (non-decreasing) and
bounded by the current degree-of-freedom count. -/
def GraphInv (s : HcurlState) : Prop :=
  List.Chain' (· ≤ ·) (dofCol s.graphDofEst) ∧
    ∀ x ∈ dofCol s.graphDofEst, x ≤ s.ndof

end Hcurl

/-- A concrete 05-hcurl environment used to instantiate hypotheses: the
solver succeeds and echoes its input, the error estimate is constantly 5%
and every refinement step adds one degree of freedom. -/
def envW : Hcurl.HcurlEnv where
  ndofRef := fun _ n => n + n + 2
  solve := fun _ g => { ok := true, slnVec := g }
  project := fun _ v => v
  errEst := fun _ _ _ => 5
  errEstData := fun _ _ _ => [5]
  errExact := fun _ _ => 7
  errExactData := fun _ _ => [7]
  adapt := fun _ n _ => { doneSignal := false, ndofAfter := n + 1 }

/-- A concrete transient environment used to instantiate hypotheses: the
Runge-Kutta step succeeds and echoes the previous solution, the error
estimate is constantly 5% and every refinement step adds one degree of
freedom. -/
def envTW : Transient.TransEnv where
  baseElems := 4
  unrefineDegs := fun l => l.take 1
  ndofOf := fun l => l.length + l.sum
  ndofRef := fun _ _ ws => ws.ndof * 2
  rkSolve := fun _ _ v => { ok := true, slnVec := v }
  project := fun _ _ _ v => v
  errEst := fun _ _ _ _ => 5
  adapt := fun _ _ ws _ _ =>
    { doneSignal := false, wsAfter := { degs := ws.degs, ndof := ws.ndof + 1 } }

/-- A concrete adaptivity-loop entry state for the transient driver. -/
def stW : Transient.AdaptState where
  ws := { degs := [2, 2], ndof := 0 }
  slnTimePrev := [1]
  slnTimeNew := []
  done := false
  as := 1
  refBuilds := 0
  refCalls := []
  prevWrites := 0
  log := []

/-- A concrete 05-hcurl environment whose refinement step reports the
converged signal (no element qualifies) while the error estimate stays at
5%. -/
def envW2 : Hcurl.HcurlEnv where
  ndofRef := fun _ n => n + n + 2
  solve := fun _ g => { ok := true, slnVec := g }
  project := fun _ v => v
  errEst := fun _ _ _ => 5
  errEstData := fun _ _ _ => [5]
  errExact := fun _ _ => 7
  errExactData := fun _ _ => [7]
  adapt := fun _ n _ => { doneSignal := true, ndofAfter := n }

/-- A concrete 05-hcurl environment with a 5% error estimate whose
refinement step adds 50 degrees of freedom. -/
def envC : Hcurl.HcurlEnv where
  ndofRef := fun _ n => n + n + 2
  solve := fun _ g => { ok := true, slnVec := g }
  project := fun _ v => v
  errEst := fun _ _ _ => 5
  errEstData := fun _ _ _ => [5]
  errExact := fun _ _ => 7
  errExactData := fun _ _ => [7]
  adapt := fun _ n _ => { doneSignal := false, ndofAfter := n + 50 }

/-- A concrete 05-hcurl environment whose error estimate of 0% is below
the tolerance. -/
def envC2 : Hcurl.HcurlEnv where
  ndofRef := fun _ n => n + n + 2
  solve := fun _ g => { ok := true, slnVec := g }
  project := fun _ v => v
  errEst := fun _ _ _ => 0
  errEstData := fun _ _ _ => [0]
  errExact := fun _ _ => 7
  errExactData := fun _ _ => [7]
  adapt := fun _ n _ => { doneSignal := false, ndofAfter := n + 50 }

/-- The always-failing Newton solver used in the C3 witness. -/
def fFail : ℕ → Vec → SolveOutcome := fun _ w => { ok := false, slnVec := w }

/-- The always-succeeding Newton solver used in the C3 witness. -/
def gOk : ℕ → Vec → SolveOutcome := fun _ w => { ok := true, slnVec := w }

/-- The always-failing Runge-Kutta solver used in the C3 witness. -/
def fFailT : ℕ → ℕ → Vec → SolveOutcome :=
  fun _ _ v => { ok := false, slnVec := v }

/-- The always-succeeding Runge-Kutta solver used in the C3 witness. -/
def gOkT : ℕ → ℕ → Vec → SolveOutcome :=
  fun _ _ v => { ok := true, slnVec := v }

/-- A concrete outer-driver state entering its first time step
(`ts = 1`). -/
def S0 : Transient.TransState where
  ws := { degs := [3, 3], ndof := 20 }
  slnTimePrev := [1]
  slnTimeNew := []
  currentTime := 0
  ts := 1
  ndofCoarse := 20
  derefCount := 0
  prevWrites := 0
  refCalls := []
  log := []

/-- A concrete outer-driver state entering its second time step
(`ts = 2`). -/
def S1 : Transient.TransState where
  ws := { degs := [3, 3], ndof := 20 }
  slnTimePrev := [1]
  slnTimeNew := []
  currentTime := 0
  ts := 2
  ndofCoarse := 20
  derefCount := 0
  prevWrites := 0
  refCalls := []
  log := []

namespace Hcurl

/-- The fields of one `hcurlStep` written by the stopping decision agree
with `stoppingDecision` applied to the step's error estimate and error
data. -/
theorem hcurlStep_dec (NDOF_STOP : ℕ) (env : HcurlEnv) (i : ℕ)
    (s : HcurlState) :
    (hcurlStep NDOF_STOP env i s).ndof =
      (stoppingDecision NDOF_STOP env i s.ndof s.as (stepErrEst env i s)
        (stepErrData env i s)).1 ∧
    (hcurlStep NDOF_STOP env i s).as =
      (stoppingDecision NDOF_STOP env i s.ndof s.as (stepErrEst env i s)
        (stepErrData env i s)).2.1 ∧
    (hcurlStep NDOF_STOP env i s).done =
      (stoppingDecision NDOF_STOP env i s.ndof s.as (stepErrEst env i s)
        (stepErrData env i s)).2.2 :=
  ⟨rfl, rfl, rfl⟩

end Hcurl

namespace Hcurl

/-- When the stopping decision leaves `done` unset, the step went through
the refinement branch without converged signal and the resulting
degree-of-freedom count is still below the ceiling. -/
theorem sd_not_done (NDOF_STOP : ℕ) (env : HcurlEnv) (i ndof as : ℕ)
    (err : ℚ) (d : ErrData)
    (h : (stoppingDecision NDOF_STOP env i ndof as err d).2.2 = false) :
    ¬ err < ERR_STOP ∧ (env.adapt i ndof d).doneSignal = false ∧
    (stoppingDecision NDOF_STOP env i ndof as err d).1 =
      (env.adapt i ndof d).ndofAfter ∧
    (stoppingDecision NDOF_STOP env i ndof as err d).1 < NDOF_STOP := by
  by_cases he : err < ERR_STOP
  · simp [stoppingDecision, he] at h
  · have h1 : (stoppingDecision NDOF_STOP env i ndof as err d).1 =
        (env.adapt i ndof d).ndofAfter := by
      simp [stoppingDecision, he]
    have h2 : (stoppingDecision NDOF_STOP env i ndof as err d).2.2 =
        ((env.adapt i ndof d).doneSignal ||
          decide (NDOF_STOP ≤ (env.adapt i ndof d).ndofAfter)) := by
      simp [stoppingDecision, he]
    rw [h2] at h
    simp only [Bool.or_eq_false_iff, decide_eq_false_iff_not, not_le] at h
    exact ⟨he, h.1, h1, by rw [h1]; exact h.2⟩

/-- The stopping decision sets `done` whenever the resulting
degree-of-freedom count has reached the ceiling. -/
theorem sd_ceiling (NDOF_STOP : ℕ) (env : HcurlEnv) (i ndof as : ℕ)
    (err : ℚ) (d : ErrData)
    (h : NDOF_STOP ≤ (stoppingDecision NDOF_STOP env i ndof as err d).1) :
    (stoppingDecision NDOF_STOP env i ndof as err d).2.2 = true := by
  simp only [stoppingDecision] at h ⊢
  simp [h]

/-- A step of the 05-hcurl loop that does not set `done` strictly
increases the working space's degree-of-freedom count and stays below the
ceiling, provided the refinement step grows the space whenever it commits
a refinement. -/
theorem hstep_progress (NDOF_STOP : ℕ) (env : HcurlEnv)
    (hmono : ∀ i n d, (env.adapt i n d).doneSignal = false →
      n < (env.adapt i n d).ndofAfter)
    (i : ℕ) (s : HcurlState)
    (h : (hcurlStep NDOF_STOP env i s).done = false) :
    s.ndof < (hcurlStep NDOF_STOP env i s).ndof ∧
    (hcurlStep NDOF_STOP env i s).ndof < NDOF_STOP := by
  have hd := (hcurlStep_dec NDOF_STOP env i s).2.2
  have hn := (hcurlStep_dec NDOF_STOP env i s).1
  rw [hd] at h
  obtain ⟨-, hsig, heq, hlt⟩ :=
    sd_not_done NDOF_STOP env i s.ndof s.as (stepErrEst env i s)
      (stepErrData env i s) h
  refine ⟨?_, ?_⟩
  · rw [hn, heq]
    exact hmono i s.ndof (stepErrData env i s) hsig
  · rw [hn]
    exact hlt

/-- Fuel-indexed termination of the 05-hcurl loop: once the fuel covers
the distance from the current degree-of-freedom count to the ceiling, the
loop ends with `done` set. -/
theorem hloop_term (NDOF_STOP : ℕ) (env : HcurlEnv)
    (hmono : ∀ i n d, (env.adapt i n d).doneSignal = false →
      n < (env.adapt i n d).ndofAfter) :
    ∀ fuel i s, NDOF_STOP ≤ s.ndof + fuel → 1 ≤ fuel →
      (hcurlLoop NDOF_STOP env fuel i s).done = true := by
  intro fuel
  induction fuel with
  | zero => intro i s _ h1; omega
  | succ n ih =>
    intro i s hle _
    simp only [hcurlLoop]
    by_cases hd : (hcurlStep NDOF_STOP env i s).done
    · simp [hd]
    · have hp := hstep_progress NDOF_STOP env hmono i s
        (Bool.not_eq_true _ ▸ hd)
      simp only [hd, if_false]
      rcases Nat.eq_zero_or_pos n with hn | hn
      · omega
      · exact ih (i + 1) (hcurlStep NDOF_STOP env i s) (by omega) hn

end Hcurl

namespace Transient

/-- One `transStep` sets `done` whenever the resulting working
discretization has reached the degree-of-freedom ceiling. -/
theorem tstep_ceiling (NDOF_STOP : ℕ) (env : TransEnv) (ts i : ℕ)
    (st : AdaptState)
    (h : NDOF_STOP ≤ (transStep NDOF_STOP env ts i st).ws.ndof) :
    (transStep NDOF_STOP env ts i st).done = true := by
  by_cases he : stepErrT env ts i st < ERR_STOP
  · simp only [stepErrT] at he
    simp [transStep, he]
  · simp only [stepErrT] at he
    by_cases hc : NDOF_STOP ≤ (stepAdaptT env ts i st).wsAfter.ndof
    · simp only [stepAdaptT] at hc
      simp [transStep, he, hc]
    · simp only [stepAdaptT] at hc
      simp [transStep, he, hc] at h

/-- A `transStep` that does not set `done` strictly increases the working
discretization's degree-of-freedom count and stays below the ceiling,
provided the refinement step grows the space whenever it commits a
refinement. -/
theorem tstep_progress (NDOF_STOP : ℕ) (env : TransEnv)
    (hmono : ∀ ts i ws c f, (env.adapt ts i ws c f).doneSignal = false →
      ws.ndof < (env.adapt ts i ws c f).wsAfter.ndof)
    (ts i : ℕ) (st : AdaptState)
    (h : (transStep NDOF_STOP env ts i st).done = false) :
    st.ws.ndof < (transStep NDOF_STOP env ts i st).ws.ndof ∧
    (transStep NDOF_STOP env ts i st).ws.ndof < NDOF_STOP := by
  by_cases he : stepErrT env ts i st < ERR_STOP
  · simp only [stepErrT] at he
    simp [transStep, he] at h
  · by_cases hc : NDOF_STOP ≤ (stepAdaptT env ts i st).wsAfter.ndof
    · simp only [stepErrT] at he
      simp only [stepAdaptT] at hc
      simp [transStep, he, hc] at h
    · have he' := he
      have hc' := hc
      simp only [stepErrT] at he'
      simp only [stepAdaptT] at hc'
      have hws : (transStep NDOF_STOP env ts i st).ws =
          (stepAdaptT env ts i st).wsAfter := by
        simp only [stepAdaptT]
        simp [transStep, he', hc']
      have hdn : (transStep NDOF_STOP env ts i st).done =
          (stepAdaptT env ts i st).doneSignal := by
        simp only [stepAdaptT]
        simp [transStep, he', hc']
      rw [hdn] at h
      rw [hws]
      refine ⟨?_, by omega⟩
      have := hmono ts i st.ws
        (env.project ts i st.ws (env.rkSolve ts i st.slnTimePrev).slnVec)
        (env.rkSolve ts i st.slnTimePrev).slnVec
      simp only [stepAdaptT]
      exact this (by simpa [stepAdaptT] using h)

/-- Fuel-indexed termination of the spatial adaptivity loop of one time
step: once the fuel covers the distance from the current
degree-of-freedom count to the ceiling, the loop ends with `done` set. -/
theorem tloop_term (NDOF_STOP : ℕ) (env : TransEnv) (ts : ℕ)
    (hmono : ∀ ts i ws c f, (env.adapt ts i ws c f).doneSignal = false →
      ws.ndof < (env.adapt ts i ws c f).wsAfter.ndof) :
    ∀ fuel i st, NDOF_STOP ≤ st.ws.ndof + fuel → 1 ≤ fuel →
      (adaptLoop NDOF_STOP env ts fuel i st).done = true := by
  intro fuel
  induction fuel with
  | zero => intro i st _ h1; omega
  | succ n ih =>
    intro i st hle _
    simp only [adaptLoop]
    by_cases hd : (transStep NDOF_STOP env ts i st).done
    · simp [hd]
    · have hp := tstep_progress NDOF_STOP env hmono ts i st
        (Bool.not_eq_true _ ▸ hd)
      simp only [hd, if_false]
      rcases Nat.eq_zero_or_pos n with hn | hn
      · omega
      · exact ih (i + 1) (transStep NDOF_STOP env ts i st) (by omega) hn

end Transient

/-- C1: with a finite degree-of-freedom ceiling the adaptivity loop
terminates after finitely many steps — provided each committed refinement
adds at least one degree of freedom, the 05-hcurl loop and the transient
spatial adaptivity loop both reach `done = true` within `NDOF_STOP + 1`
iterations; and in either loop, any step whose resulting working space has
at least `NDOF_STOP` degrees of freedom ends with `done = true`, with no
regard to the error estimate. -/
theorem C1_dof_ceiling_termination
    (NDOF_STOP : ℕ) (env : Hcurl.HcurlEnv) (envT : Transient.TransEnv)
    (hmono : ∀ i n d, (env.adapt i n d).doneSignal = false →
      n < (env.adapt i n d).ndofAfter)
    (hmonoT : ∀ ts i ws c f, (envT.adapt ts i ws c f).doneSignal = false →
      ws.ndof < (envT.adapt ts i ws c f).wsAfter.ndof) :
    (∀ i s, NDOF_STOP ≤ (Hcurl.hcurlStep NDOF_STOP env i s).ndof →
      (Hcurl.hcurlStep NDOF_STOP env i s).done = true) ∧
    (∀ i s, (Hcurl.hcurlLoop NDOF_STOP env (NDOF_STOP + 1) i s).done = true) ∧
    (∀ ts i st,
      NDOF_STOP ≤ (Transient.transStep NDOF_STOP envT ts i st).ws.ndof →
      (Transient.transStep NDOF_STOP envT ts i st).done = true) ∧
    (∀ ts i st,
      (Transient.adaptLoop NDOF_STOP envT ts (NDOF_STOP + 1) i st).done
        = true) := by
  refine ⟨?_, ?_, ?_, ?_⟩
  · intro i s h
    have hd := Hcurl.hcurlStep_dec NDOF_STOP env i s
    rw [hd.2.2]
    exact Hcurl.sd_ceiling _ _ _ _ _ _ _ (hd.1 ▸ h)
  · intro i s
    exact Hcurl.hloop_term NDOF_STOP env hmono _ i s (by omega) (by omega)
  · intro ts i st h
    exact Transient.tstep_ceiling _ _ _ _ _ h
  · intro ts i st
    exact Transient.tloop_term NDOF_STOP envT ts hmonoT _ i st
      (by omega) (by omega)

/-- Witness for C1: with ceiling 3, the constant-5%-error environments
terminate both loops within 4 iterations. -/
theorem C1_dof_ceiling_termination_witness :
    (Hcurl.hcurlLoop 3 envW 4 0 (Hcurl.initState 0)).done = true ∧
    (Transient.adaptLoop 3 envTW 1 4 1 stW).done = true := by
  have h := C1_dof_ceiling_termination 3 envW envTW
    (by intro i n d _; simp [envW])
    (by intro ts i ws c f _; simp [envTW])
  exact ⟨h.2.1 0 (Hcurl.initState 0), h.2.2.2 1 1 stW⟩

namespace Hcurl

/-- The do-while loop performs no further iteration once a step has set
`done`. -/
theorem hloop_exit (NDOF_STOP : ℕ) (env : HcurlEnv) (fuel i : ℕ)
    (s : HcurlState) (h : (hcurlStep NDOF_STOP env i s).done = true) :
    hcurlLoop NDOF_STOP env (fuel + 1) i s = hcurlStep NDOF_STOP env i s := by
  simp [hcurlLoop, h]

end Hcurl

/-- C6: if, in a step whose error estimate is at or above the tolerance
`ERR_STOP`, the refinement step `adaptivity.adapt(&selector)` returns the
converged signal, then that step ends with `done = true` and — for any
remaining fuel — the loop builds no further reference discretization: the
total count of reference builds in the run is the one of that step. -/
theorem C6_no_candidate_stops (NDOF_STOP : ℕ) (env : Hcurl.HcurlEnv)
    (i : ℕ) (s : Hcurl.HcurlState)
    (herr : Hcurl.ERR_STOP ≤ Hcurl.stepErrEst env i s)
    (hsig : Hcurl.stepAdaptSignal env i s = true) :
    (Hcurl.hcurlStep NDOF_STOP env i s).done = true ∧
    ∀ fuel, (Hcurl.hcurlLoop NDOF_STOP env (fuel + 1) i s).refBuilds =
      s.refBuilds + 1 := by
  have hd := Hcurl.hcurlStep_dec NDOF_STOP env i s
  have hdone : (Hcurl.hcurlStep NDOF_STOP env i s).done = true := by
    rw [hd.2.2]
    have he : ¬ Hcurl.stepErrEst env i s < Hcurl.ERR_STOP := not_lt.mpr herr
    simp only [Hcurl.stepAdaptSignal] at hsig
    simp [Hcurl.stoppingDecision, he, hsig]
  refine ⟨hdone, fun fuel => ?_⟩
  rw [Hcurl.hloop_exit NDOF_STOP env fuel i s hdone]
  rfl

/-- Witness for C6: a converged-signal refinement step at 5% error stops
the run after one reference build. -/
theorem C6_no_candidate_stops_witness :
    (Hcurl.hcurlStep 100 envW2 0 (Hcurl.initState 7)).done = true ∧
    (Hcurl.hcurlLoop 100 envW2 (4 + 1) 0 (Hcurl.initState 7)).refBuilds =
      (Hcurl.initState 7).refBuilds + 1 := by
  have h := C6_no_candidate_stops 100 envW2 0 (Hcurl.initState 7)
    (by norm_num [Hcurl.stepErrEst, envW2, Hcurl.ERR_STOP])
    (by simp [Hcurl.stepAdaptSignal, Hcurl.stepErrData, envW2])
  exact ⟨h.1, h.2 4⟩

/-- C2 (counterexample): a step that stops at the DOF ceiling with the
error estimate still at 5% ≥ `ERR_STOP` produces a state that agrees with
the state of the very same step under a larger ceiling — which does not
stop — on every field except the `done` flag: the log, both DOF
convergence graphs, both CPU graphs, the counters and the solutions carry
no trace of the ceiling stop; and the surfaced `done = true` is the same
flag a tolerance-satisfied step (error 0% < `ERR_STOP`) sets, so the
ceiling termination is not surfaced as a distinct outcome. -/
theorem C2_counterexample :
    Hcurl.ERR_STOP ≤ Hcurl.stepErrEst envC 0 (Hcurl.initState 50) ∧
    (Hcurl.hcurlStep 100 envC 0 (Hcurl.initState 50)).done = true ∧
    100 ≤ (Hcurl.hcurlStep 100 envC 0 (Hcurl.initState 50)).ndof ∧
    (Hcurl.hcurlStep 1000000 envC 0 (Hcurl.initState 50)).done = false ∧
    Hcurl.hcurlStep 100 envC 0 (Hcurl.initState 50) =
      { Hcurl.hcurlStep 1000000 envC 0 (Hcurl.initState 50) with
        done := true } ∧
    (Hcurl.hcurlStep 100 envC2 0 (Hcurl.initState 50)).done = true := by
  refine ⟨by norm_num [Hcurl.stepErrEst, envC, Hcurl.ERR_STOP], ?_, ?_, ?_, ?_, ?_⟩
  · decide
  · decide
  · decide
  · decide
  · decide

/-- C2 (amended): the DOF-ceiling stop is not surfaced distinctly — the
ceiling value influences nothing but the shared `done` flag (two runs of
one step under different ceilings agree on every other state field), and
the only datum from which a ceiling stop can be told apart from a
tolerance stop is the recorded diagnostic itself: the last entry appended
to the estimated-error convergence graph carries the step's error
estimate, which stays at or above the tolerance in a ceiling stop. -/
theorem C2_ceiling_only_done_flag :
    (∀ c1 c2 : ℕ, ∀ env : Hcurl.HcurlEnv, ∀ i : ℕ, ∀ s : Hcurl.HcurlState,
      Hcurl.hcurlStep c1 env i s =
        { Hcurl.hcurlStep c2 env i s with
          done := (Hcurl.hcurlStep c1 env i s).done }) ∧
    (∀ c : ℕ, ∀ env : Hcurl.HcurlEnv, ∀ i : ℕ, ∀ s : Hcurl.HcurlState,
      (Hcurl.hcurlStep c env i s).graphDofEst.getLast? =
        some (s.ndof, Hcurl.stepErrEst env i s)) := by
  constructor
  · intro c1 c2 env i s
    rfl
  · intro c env i s
    simp [Hcurl.hcurlStep, Hcurl.stepErrEst]

namespace Hcurl

/-- A failing Newton solve (caught exception, printed, last-produced
vector kept) yields the same step result as a succeeding solve returning
that vector, apart from the extra exception message in the log. -/
theorem hstep_solver_fail (c : ℕ) (env : HcurlEnv)
    (f g : ℕ → Vec → SolveOutcome)
    (hf : ∀ j w, f j w = { ok := false, slnVec := (g j w).slnVec })
    (hg : ∀ j w, (g j w).ok = true) (i : ℕ) (s : HcurlState) :
    EqExceptLog (hcurlStep c (withSolve env f) i s)
      (hcurlStep c (withSolve env g) i s) ∧
    (hcurlStep c (withSolve env f) i s).log =
      s.log ++ [LogEntry.solverExc,
        LogEntry.errEstInfo (stepErrEst (withSolve env g) i s)] ∧
    (hcurlStep c (withSolve env g) i s).log =
      s.log ++ [LogEntry.errEstInfo (stepErrEst (withSolve env g) i s)] := by
  refine ⟨?_, ?_, ?_⟩ <;>
    simp [hcurlStep, withSolve, EqExceptLog, stepErrEst, stoppingDecision,
      hf, hg]

/-- One step of the loop maps pairs of states equal-except-log under the
failing and the succeeding solver to pairs of states equal-except-log. -/
theorem hstep_cong_log (c : ℕ) (env : HcurlEnv)
    (f g : ℕ → Vec → SolveOutcome)
    (hf : ∀ j w, f j w = { ok := false, slnVec := (g j w).slnVec })
    (hg : ∀ j w, (g j w).ok = true) (i : ℕ) (s t : HcurlState)
    (h : EqExceptLog s t) :
    EqExceptLog (hcurlStep c (withSolve env f) i s)
      (hcurlStep c (withSolve env g) i t) := by
  obtain ⟨h1, h2, h3, h4, h5, h6, h7, h8, h9, h10, h11⟩ := h
  simp [hcurlStep, withSolve, EqExceptLog, stoppingDecision, hf, hg,
    h1, h2, h4, h5, h6, h7, h8, h9, h10, h11]

/-- The whole loop, run with the always-failing solver and with the
always-succeeding solver producing the same vectors, takes the same
branches and produces states equal except for the log. -/
theorem hloop_cong_log (c : ℕ) (env : HcurlEnv)
    (f g : ℕ → Vec → SolveOutcome)
    (hf : ∀ j w, f j w = { ok := false, slnVec := (g j w).slnVec })
    (hg : ∀ j w, (g j w).ok = true) :
    ∀ fuel i s t, EqExceptLog s t →
      EqExceptLog (hcurlLoop c (withSolve env f) fuel i s)
        (hcurlLoop c (withSolve env g) fuel i t) := by
  intro fuel
  induction fuel with
  | zero => intro i s t h; exact h
  | succ n ih =>
    intro i s t h
    have hs := hstep_cong_log c env f g hf hg i s t h
    have hdone : (hcurlStep c (withSolve env f) i s).done =
        (hcurlStep c (withSolve env g) i t).done := hs.2.2.1
    simp only [hcurlLoop]
    by_cases hd : (hcurlStep c (withSolve env f) i s).done
    · rw [if_pos hd, if_pos (hdone ▸ hd)]
      exact hs
    · rw [if_neg hd, if_neg (hdone ▸ hd)]
      exact ih (i + 1) _ _ hs

end Hcurl

namespace Transient


/-- A failing Runge-Kutta step (caught exception, printed, last-produced
contents of `sln_time_new` kept) yields the same adaptivity-step result
as a succeeding step producing that vector, apart from the extra
exception message in the log. -/
theorem tstep_solver_fail (c : ℕ) (env : TransEnv)
    (f g : ℕ → ℕ → Vec → SolveOutcome)
    (hf : ∀ a b v, f a b v = { ok := false, slnVec := (g a b v).slnVec })
    (hg : ∀ a b v, (g a b v).ok = true) (ts i : ℕ) (st : AdaptState) :
    EqExceptLogT (transStep c (withRkSolve env f) ts i st)
      (transStep c (withRkSolve env g) ts i st) ∧
    ∃ rest, (transStep c (withRkSolve env f) ts i st).log =
        st.log ++ LogEntry.tsInfo ts st.as :: LogEntry.rkExc :: rest ∧
      (transStep c (withRkSolve env g) ts i st).log =
        st.log ++ LogEntry.tsInfo ts st.as :: rest := by
  by_cases he : stepErrT (withRkSolve env g) ts i st < ERR_STOP
  · simp only [stepErrT, withRkSolve] at he
    constructor
    · simp [transStep, withRkSolve, EqExceptLogT, hf, hg, he]
    · refine ⟨[LogEntry.ndofInfo st.ws.ndof
        (env.ndofRef ts i st.ws) (stepErrT (withRkSolve env g) ts i st)], ?_, ?_⟩ <;>
        simp [transStep, withRkSolve, stepErrT, hf, hg, he]
  · simp only [stepErrT, withRkSolve] at he
    by_cases hc : c ≤ (stepAdaptT (withRkSolve env g) ts i st).wsAfter.ndof
    · simp only [stepAdaptT, withRkSolve] at hc
      constructor
      · simp [transStep, withRkSolve, EqExceptLogT, hf, hg, he, hc]
      · refine ⟨[LogEntry.ndofInfo st.ws.ndof
          (env.ndofRef ts i st.ws) (stepErrT (withRkSolve env g) ts i st),
          LogEntry.adaptingInfo], ?_, ?_⟩ <;>
          simp [transStep, withRkSolve, stepErrT, hf, hg, he, hc]
    · simp only [stepAdaptT, withRkSolve] at hc
      constructor
      · simp [transStep, withRkSolve, EqExceptLogT, hf, hg, he, hc]
      · refine ⟨[LogEntry.ndofInfo st.ws.ndof
          (env.ndofRef ts i st.ws) (stepErrT (withRkSolve env g) ts i st),
          LogEntry.adaptingInfo], ?_, ?_⟩ <;>
          simp [transStep, withRkSolve, stepErrT, hf, hg, he, hc]

end Transient

/-- C3: a solver failure never aborts the loops — in 05-hcurl, a step
whose Newton solve raises is logged (`solverExc`) and otherwise produces
exactly the state produced by a succeeding solve returning the solver's
last coefficient vector, so projection, error estimation and the stopping
decision still run; the whole loop takes the same branches under the
failing and the succeeding solver; and in the transient driver, a step
whose Runge-Kutta solve raises logs the exception and otherwise produces
the state of a succeeding step producing the same `sln_time_new`. -/
theorem C3_solver_failure_continues (c : ℕ) (env : Hcurl.HcurlEnv)
    (f g : ℕ → Vec → SolveOutcome)
    (hf : ∀ j w, f j w = { ok := false, slnVec := (g j w).slnVec })
    (hg : ∀ j w, (g j w).ok = true)
    (envT : Transient.TransEnv) (fT gT : ℕ → ℕ → Vec → SolveOutcome)
    (hfT : ∀ a b v, fT a b v = { ok := false, slnVec := (gT a b v).slnVec })
    (hgT : ∀ a b v, (gT a b v).ok = true) :
    (∀ i s, Hcurl.EqExceptLog (Hcurl.hcurlStep c (Hcurl.withSolve env f) i s)
        (Hcurl.hcurlStep c (Hcurl.withSolve env g) i s) ∧
      (Hcurl.hcurlStep c (Hcurl.withSolve env f) i s).log =
        s.log ++ [LogEntry.solverExc,
          LogEntry.errEstInfo (Hcurl.stepErrEst (Hcurl.withSolve env g) i s)]) ∧
    (∀ fuel i s,
      Hcurl.EqExceptLog (Hcurl.hcurlLoop c (Hcurl.withSolve env f) fuel i s)
        (Hcurl.hcurlLoop c (Hcurl.withSolve env g) fuel i s)) ∧
    (∀ ts i st,
      Transient.EqExceptLogT
        (Transient.transStep c (Transient.withRkSolve envT fT) ts i st)
        (Transient.transStep c (Transient.withRkSolve envT gT) ts i st) ∧
      ∃ rest,
        (Transient.transStep c (Transient.withRkSolve envT fT) ts i st).log =
          st.log ++ LogEntry.tsInfo ts st.as :: LogEntry.rkExc :: rest ∧
        (Transient.transStep c (Transient.withRkSolve envT gT) ts i st).log =
          st.log ++ LogEntry.tsInfo ts st.as :: rest) := by
  refine ⟨fun i s => ?_, fun fuel i s => ?_, fun ts i st => ?_⟩
  · have h := Hcurl.hstep_solver_fail c env f g hf hg i s
    exact ⟨h.1, h.2.1⟩
  · refine Hcurl.hloop_cong_log c env f g hf hg fuel i s s ?_
    exact ⟨rfl, rfl, rfl, rfl, rfl, rfl, rfl, rfl, rfl, rfl, rfl⟩
  · exact Transient.tstep_solver_fail c envT fT gT hfT hgT ts i st


/-- Witness for C3 at a concrete environment, state and fuel. -/
theorem C3_solver_failure_continues_witness :
    Hcurl.EqExceptLog
      (Hcurl.hcurlLoop 100 (Hcurl.withSolve envW fFail) 3 0 (Hcurl.initState 5))
      (Hcurl.hcurlLoop 100 (Hcurl.withSolve envW gOk) 3 0 (Hcurl.initState 5)) ∧
    Transient.EqExceptLogT
      (Transient.transStep 100 (Transient.withRkSolve envTW fFailT) 1 1 stW)
      (Transient.transStep 100 (Transient.withRkSolve envTW gOkT) 1 1 stW) := by
  have h := C3_solver_failure_continues 100 envW fFail gOk
    (fun j w => rfl) (fun j w => rfl) envTW fFailT gOkT
    (fun a b v => rfl) (fun a b v => rfl)
  exact ⟨h.2.1 3 0 (Hcurl.initState 5), (h.2.2 1 1 stW).1⟩

namespace Hcurl

/-- One step of the loop maps pairs of states equal except for the
exact-error graph, run under environments that differ only in the
exact-solution oracles, to pairs of states equal except for the
exact-error graph. -/
theorem hstep_cong_exact (c : ℕ) (env : HcurlEnv)
    (ex1 ex2 : ℕ → Vec → ℚ) (exd1 exd2 : ℕ → Vec → ErrData) (i : ℕ)
    (s t : HcurlState) (h : EqExceptGraphExact s t) :
    EqExceptGraphExact (hcurlStep c (withExact env ex1 exd1) i s)
      (hcurlStep c (withExact env ex2 exd2) i t) := by
  obtain ⟨h1, h2, h3, h4, h5, h6, h7, h8, h9, h10, h11⟩ := h
  simp [hcurlStep, withExact, EqExceptGraphExact, stoppingDecision,
    calc_err_exact, h1, h2, h4, h5, h6, h7, h8, h9, h10, h11]

/-- The whole loop under two environments that differ only in the
exact-solution oracles takes the same branches and produces states equal
except for the exact-error graph. -/
theorem hloop_cong_exact (c : ℕ) (env : HcurlEnv)
    (ex1 ex2 : ℕ → Vec → ℚ) (exd1 exd2 : ℕ → Vec → ErrData) :
    ∀ fuel i s t, EqExceptGraphExact s t →
      EqExceptGraphExact (hcurlLoop c (withExact env ex1 exd1) fuel i s)
        (hcurlLoop c (withExact env ex2 exd2) fuel i t) := by
  intro fuel
  induction fuel with
  | zero => intro i s t h; exact h
  | succ n ih =>
    intro i s t h
    have hs := hstep_cong_exact c env ex1 ex2 exd1 exd2 i s t h
    have hdone : (hcurlStep c (withExact env ex1 exd1) i s).done =
        (hcurlStep c (withExact env ex2 exd2) i t).done := hs.2.2.1
    simp only [hcurlLoop]
    by_cases hd : (hcurlStep c (withExact env ex1 exd1) i s).done
    · rw [if_pos hd, if_pos (hdone ▸ hd)]
      exact hs
    · rw [if_neg hd, if_neg (hdone ▸ hd)]
      exact ih (i + 1) _ _ hs

end Hcurl

/-- C7: the exact-error computation never influences the loop — two runs
under environments identical except for the externally supplied exact
solution's oracles (`calc_err_exact` value and the data it would store)
produce, from states equal except for the exact-error graph, final states
equal except for the exact-error graph: the same `done` decisions, the
same refinements and degree-of-freedom counts, the same estimated-error
records and logs in every step, because `calc_err_exact` is called with
`solutions_for_adapt = false` and so never overwrites the per-element
error data consumed by `adapt`. -/
theorem C7_exact_error_no_influence (c : ℕ) (env : Hcurl.HcurlEnv)
    (ex1 ex2 : ℕ → Vec → ℚ) (exd1 exd2 : ℕ → Vec → ErrData)
    (fuel i : ℕ) (s t : Hcurl.HcurlState)
    (h : Hcurl.EqExceptGraphExact s t) :
    Hcurl.EqExceptGraphExact
      (Hcurl.hcurlLoop c (Hcurl.withExact env ex1 exd1) fuel i s)
      (Hcurl.hcurlLoop c (Hcurl.withExact env ex2 exd2) fuel i t) :=
  Hcurl.hloop_cong_exact c env ex1 ex2 exd1 exd2 fuel i s t h

/-- Witness for C7: two exact-solution oracles (7% against 9%) leave a
concrete three-step run identical except for the exact-error graph. -/
theorem C7_exact_error_no_influence_witness :
    Hcurl.EqExceptGraphExact
      (Hcurl.hcurlLoop 100
        (Hcurl.withExact envW (fun _ _ => 7) (fun _ _ => [7])) 3 0
        (Hcurl.initState 5))
      (Hcurl.hcurlLoop 100
        (Hcurl.withExact envW (fun _ _ => 9) (fun _ _ => [9])) 3 0
        (Hcurl.initState 5)) :=
  C7_exact_error_no_influence 100 envW (fun _ _ => 7) (fun _ _ => 9)
    (fun _ _ => [7]) (fun _ _ => [9]) 3 0 (Hcurl.initState 5)
    (Hcurl.initState 5)
    ⟨rfl, rfl, rfl, rfl, rfl, rfl, rfl, rfl, rfl, rfl, rfl⟩

namespace Hcurl

/-- The stopping decision never decreases the degree-of-freedom count,
provided the refinement step does not. -/
theorem sd_ndof_ge (NDOF_STOP : ℕ) (env : HcurlEnv) (i ndof as : ℕ)
    (err : ℚ) (d : ErrData)
    (hmono : ndof ≤ (env.adapt i ndof d).ndofAfter) :
    ndof ≤ (stoppingDecision NDOF_STOP env i ndof as err d).1 := by
  by_cases he : err < ERR_STOP
  · simp [stoppingDecision, he]
  · simpa [stoppingDecision, he] using hmono

/-- One step preserves the convergence-graph invariant: it appends the
current degree-of-freedom count, which bounds all previous entries, and
the count never decreases. -/
theorem hstep_graphinv (NDOF_STOP : ℕ) (env : HcurlEnv)
    (hmono : ∀ i n d, n ≤ (env.adapt i n d).ndofAfter) (i : ℕ)
    (s : HcurlState) (h : GraphInv s) :
    GraphInv (hcurlStep NDOF_STOP env i s) := by
  have hcol : dofCol (hcurlStep NDOF_STOP env i s).graphDofEst =
      dofCol s.graphDofEst ++ [s.ndof] := by
    simp [hcurlStep, dofCol]
  have hge : s.ndof ≤ (hcurlStep NDOF_STOP env i s).ndof := by
    rw [(hcurlStep_dec NDOF_STOP env i s).1]
    exact sd_ndof_ge NDOF_STOP env i s.ndof s.as (stepErrEst env i s)
      (stepErrData env i s) (hmono i s.ndof (stepErrData env i s))
  constructor
  · rw [hcol]
    rw [List.chain'_append]
    refine ⟨h.1, List.chain'_singleton _, ?_⟩
    intro x hx y hy
    simp only [List.head?_cons, Option.mem_def, Option.some.injEq] at hy
    subst hy
    obtain ⟨hne, hxl⟩ := List.mem_getLast?_eq_getLast hx
    exact h.2 x (hxl ▸ List.getLast_mem hne)
  · intro x hx
    rw [hcol] at hx
    rcases List.mem_append.mp hx with hx | hx
    · exact le_trans (h.2 x hx) hge
    · simp only [List.mem_singleton] at hx
      subst hx
      exact hge

/-- The whole loop preserves the convergence-graph invariant. -/
theorem hloop_graphinv (NDOF_STOP : ℕ) (env : HcurlEnv)
    (hmono : ∀ i n d, n ≤ (env.adapt i n d).ndofAfter) :
    ∀ fuel i s, GraphInv s → GraphInv (hcurlLoop NDOF_STOP env fuel i s) := by
  intro fuel
  induction fuel with
  | zero => intro i s h; exact h
  | succ n ih =>
    intro i s h
    simp only [hcurlLoop]
    by_cases hd : (hcurlStep NDOF_STOP env i s).done
    · rw [if_pos hd]
      exact hstep_graphinv NDOF_STOP env hmono i s h
    · rw [if_neg hd]
      exact ih (i + 1) _ (hstep_graphinv NDOF_STOP env hmono i s h)

end Hcurl

/-- C8 (counterexample): one completed 05-hcurl adaptivity step appends
one entry to each DOF-keyed record but none to the wall-clock-keyed
records `graph_cpu_est` and `graph_cpu_exact`, which are declared (lines
101-103) and never written: after the step they are still empty, so not
every persisted record receives one pair per step. -/
theorem C8_counterexample :
    (Hcurl.hcurlStep 100 envC 0 (Hcurl.initState 50)).graphDofEst.length = 1 ∧
    (Hcurl.hcurlStep 100 envC 0 (Hcurl.initState 50)).graphDofExact.length
      = 1 ∧
    (Hcurl.hcurlStep 100 envC 0 (Hcurl.initState 50)).graphCpuEst = [] ∧
    (Hcurl.hcurlStep 100 envC 0 (Hcurl.initState 50)).graphCpuExact = [] :=
  ⟨rfl, rfl, rfl, rfl⟩

/-- C8 (amended): every completed adaptivity step appends exactly one
(degrees-of-freedom, error-percent) pair to the estimated-error record
and exactly one to the exact-error record; the wall-clock-keyed records
are never appended to; the records are append-only, and — provided the
refinement step never decreases the degree-of-freedom count — the DOF
column of the estimated-error record is monotonically non-decreasing over
the steps of one run, with every entry bounded by the current count. -/
theorem C8_diagnostic_records (NDOF_STOP : ℕ) (env : Hcurl.HcurlEnv) :
    (∀ i s, (Hcurl.hcurlStep NDOF_STOP env i s).graphDofEst =
        s.graphDofEst ++ [(s.ndof, Hcurl.stepErrEst env i s)] ∧
      (Hcurl.hcurlStep NDOF_STOP env i s).graphDofExact =
        s.graphDofExact ++ [(s.ndof, Hcurl.stepErrExact env i s)] ∧
      (Hcurl.hcurlStep NDOF_STOP env i s).graphCpuEst = s.graphCpuEst ∧
      (Hcurl.hcurlStep NDOF_STOP env i s).graphCpuExact = s.graphCpuExact) ∧
    ((∀ i n d, n ≤ (env.adapt i n d).ndofAfter) →
      ∀ fuel i s, Hcurl.GraphInv s →
        Hcurl.GraphInv (Hcurl.hcurlLoop NDOF_STOP env fuel i s)) := by
  constructor
  · intro i s
    exact ⟨rfl, rfl, rfl, rfl⟩
  · intro hmono fuel i s h
    exact Hcurl.hloop_graphinv NDOF_STOP env hmono fuel i s h

/-- Witness for C8 at a concrete environment, state and fuel. -/
theorem C8_diagnostic_records_witness :
    (Hcurl.hcurlStep 100 envW 0 (Hcurl.initState 5)).graphCpuEst =
      (Hcurl.initState 5).graphCpuEst ∧
    Hcurl.GraphInv (Hcurl.hcurlLoop 100 envW 3 0 (Hcurl.initState 5)) := by
  have h := C8_diagnostic_records 100 envW
  refine ⟨(h.1 0 (Hcurl.initState 5)).2.2.1, ?_⟩
  refine h.2 ?_ 3 0 (Hcurl.initState 5) ?_
  · intro i n d
    simp [envW]
  · simp [Hcurl.GraphInv, Hcurl.dofCol, Hcurl.initState]

namespace Transient

/-- One `transStep` records exactly one reference build, performed on the
working discretization the step was entered with. -/
theorem tstep_refCalls (NDOF_STOP : ℕ) (env : TransEnv) (ts i : ℕ)
    (st : AdaptState) :
    (transStep NDOF_STOP env ts i st).refCalls = st.refCalls ++ [st.ws] := by
  simp only [transStep]
  split
  · rfl
  · split <;> rfl

/-- One `transStep` reads but never writes the previous-time-level
solution, and never copies into it. -/
theorem tstep_prev_frame (NDOF_STOP : ℕ) (env : TransEnv) (ts i : ℕ)
    (st : AdaptState) :
    (transStep NDOF_STOP env ts i st).slnTimePrev = st.slnTimePrev ∧
    (transStep NDOF_STOP env ts i st).prevWrites = st.prevWrites := by
  constructor
  · simp only [transStep]
    split
    · rfl
    · split <;> rfl
  · simp only [transStep]
    split
    · rfl
    · split <;> rfl

/-- The spatial adaptivity loop of one time step leaves the
previous-time-level solution untouched. -/
theorem tloop_prev_frame (NDOF_STOP : ℕ) (env : TransEnv) (ts : ℕ) :
    ∀ fuel i st,
      (adaptLoop NDOF_STOP env ts fuel i st).slnTimePrev = st.slnTimePrev ∧
      (adaptLoop NDOF_STOP env ts fuel i st).prevWrites = st.prevWrites := by
  intro fuel
  induction fuel with
  | zero => intro i st; exact ⟨rfl, rfl⟩
  | succ n ih =>
    intro i st
    simp only [adaptLoop]
    by_cases hd : (transStep NDOF_STOP env ts i st).done
    · rw [if_pos hd]
      exact tstep_prev_frame NDOF_STOP env ts i st
    · rw [if_neg hd]
      have h1 := ih (i + 1) (transStep NDOF_STOP env ts i st)
      have h2 := tstep_prev_frame NDOF_STOP env ts i st
      exact ⟨h1.1.trans h2.1, h1.2.trans h2.2⟩

/-- The adaptivity loop only ever appends to the record of reference
builds. -/
theorem tloop_refCalls_extend (NDOF_STOP : ℕ) (env : TransEnv) (ts : ℕ) :
    ∀ fuel i st, ∃ r,
      (adaptLoop NDOF_STOP env ts fuel i st).refCalls = st.refCalls ++ r := by
  intro fuel
  induction fuel with
  | zero => intro i st; exact ⟨[], by simp [adaptLoop]⟩
  | succ n ih =>
    intro i st
    simp only [adaptLoop]
    by_cases hd : (transStep NDOF_STOP env ts i st).done
    · rw [if_pos hd]
      exact ⟨[st.ws], tstep_refCalls NDOF_STOP env ts i st⟩
    · rw [if_neg hd]
      obtain ⟨r, hr⟩ := ih (i + 1) (transStep NDOF_STOP env ts i st)
      refine ⟨[st.ws] ++ r, ?_⟩
      rw [hr, tstep_refCalls NDOF_STOP env ts i st, List.append_assoc]

/-- With at least one unit of fuel, the first reference build recorded by
the adaptivity loop is performed on the working discretization the loop
was entered with. -/
theorem tloop_refCalls_head (NDOF_STOP : ℕ) (env : TransEnv) (ts : ℕ) :
    ∀ fuel i st, 1 ≤ fuel → ∃ r,
      (adaptLoop NDOF_STOP env ts fuel i st).refCalls =
        st.refCalls ++ st.ws :: r := by
  intro fuel i st hfuel
  obtain ⟨n, rfl⟩ : ∃ n, fuel = n + 1 := ⟨fuel - 1, by omega⟩
  simp only [adaptLoop]
  by_cases hd : (transStep NDOF_STOP env ts i st).done
  · rw [if_pos hd]
    exact ⟨[], by rw [tstep_refCalls NDOF_STOP env ts i st]⟩
  · rw [if_neg hd]
    obtain ⟨r, hr⟩ :=
      tloop_refCalls_extend NDOF_STOP env ts n (i + 1)
        (transStep NDOF_STOP env ts i st)
    refine ⟨r, ?_⟩
    rw [hr, tstep_refCalls NDOF_STOP env ts i st, List.append_assoc]
    rfl

end Transient

/-- C4 (counterexample): the first time step has index 1, a multiple of
the default frequency `UNREF_FREQ = 1`, yet the guard `ts > 1` makes the
driver perform no derefinement there: the derefinement count stays 0 and
the first reference build of the step uses the working discretization
unchanged, not its derefinement (which differs from it). -/
theorem C4_counterexample :
    1 % Transient.UNREF_FREQ = 0 ∧
    (Transient.timeStep 100 envTW 1 S0).derefCount = 0 ∧
    (Transient.timeStep 100 envTW 1 S0).refCalls.head? = some S0.ws ∧
    Transient.derefineSpace envTW Transient.UNREF_METHOD S0.ws ≠ S0.ws := by
  refine ⟨rfl, rfl, ?_, ?_⟩
  · decide
  · decide

/-- C4 (amended): the transient driver performs a derefinement before the
adaptivity loop of every time step whose index both exceeds 1 and is a
multiple of the configured frequency `UNREF_FREQ` — with the default
`UNREF_FREQ = 1`, before every time step except the first — and when it
fires, the first reference build of that time step is performed on the
derefined working discretization. -/
theorem C4_derefinement_before_first_build (c : ℕ)
    (env : Transient.TransEnv) (fuel : ℕ) (S : Transient.TransState)
    (hfuel : 1 ≤ fuel) :
    ((Transient.timeStep c env fuel S).derefCount =
      if Transient.derefTriggered S.ts = true then S.derefCount + 1
      else S.derefCount) ∧
    (Transient.derefTriggered S.ts =
      (decide (1 < S.ts) && decide (S.ts % Transient.UNREF_FREQ = 0))) ∧
    (Transient.derefTriggered S.ts = true →
      ((Transient.timeStep c env fuel S).refCalls.drop
          S.refCalls.length).head? =
        some (Transient.derefineSpace env Transient.UNREF_METHOD S.ws)) := by
  refine ⟨rfl, rfl, fun hde => ?_⟩
  have h1 : (Transient.timeStep c env fuel S).refCalls =
      S.refCalls ++ (Transient.adaptLoop c env S.ts fuel 1
        (Transient.mkAdaptState env S)).refCalls := rfl
  obtain ⟨r, hr⟩ := Transient.tloop_refCalls_head c env S.ts fuel 1
    (Transient.mkAdaptState env S) hfuel
  rw [h1, List.drop_left, hr]
  simp [Transient.mkAdaptState, hde]

/-- Witness for C4 at the second time step of a concrete run, where the
derefinement fires. -/
theorem C4_derefinement_before_first_build_witness :
    (Transient.timeStep 100 envTW 1 S1).derefCount =
      (if Transient.derefTriggered S1.ts = true then S1.derefCount + 1
       else S1.derefCount) ∧
    ((Transient.timeStep 100 envTW 1 S1).refCalls.drop
        S1.refCalls.length).head? =
      some (Transient.derefineSpace envTW Transient.UNREF_METHOD S1.ws) := by
  have h := C4_derefinement_before_first_build 100 envTW 1 S1 (by omega)
  exact ⟨h.1, h.2.2 (by decide)⟩

/-- C5: derefinement policy 3 (`UNREF_METHOD = 3`: shave one refinement
layer off and decrease polynomial degrees by one via
`adjust_element_order(-1, -1, P_INIT, P_INIT)`) never pushes any
element's degree below the base degree: every degree of the resulting
working discretization is at least `P_INIT`. -/
theorem C5_policy3_degree_lower_bound (env : Transient.TransEnv)
    (ws : Transient.WorkSpace) :
    ∀ d ∈ (Transient.derefineSpace env Transient.UNREF_METHOD ws).degs,
      Transient.P_INIT ≤ d := by
  intro d hd
  simp only [Transient.derefineSpace, Transient.UNREF_METHOD,
    Transient.adjust_element_order, List.mem_map] at hd
  obtain ⟨x, _, rfl⟩ := hd
  exact le_max_right _ _

/-- Witness for C5 on a concrete discretization: degree 2 remains in the
policy-3 derefinement of a degree-3 space and is at least the base
degree. -/
theorem C5_policy3_degree_lower_bound_witness :
    Transient.P_INIT ≤ 2 ∧
    2 ∈ (Transient.derefineSpace envTW Transient.UNREF_METHOD
      { degs := [3, 3], ndof := 20 }).degs := by
  refine ⟨C5_policy3_degree_lower_bound envTW
    { degs := [3, 3], ndof := 20 } 2 ?_, ?_⟩
  · decide
  · decide

/-- C9: throughout the spatial adaptivity loop of one time step the
previous-time-level solution is read but never written — every inner step
and the whole loop leave `sln_time_prev` and its write counter unchanged
— and the outer time step replaces it exactly once, after the adaptivity
loop, by the loop's final `sln_time_new`
(`sln_time_prev->copy(sln_time_new)`); the outer state carried across
time steps holds no other solution field beyond `sln_time_prev`,
`sln_time_new` and the working discretization. -/
theorem C9_prev_solution_frame (c : ℕ) (env : Transient.TransEnv) :
    (∀ ts i st,
      (Transient.transStep c env ts i st).slnTimePrev = st.slnTimePrev ∧
      (Transient.transStep c env ts i st).prevWrites = st.prevWrites) ∧
    (∀ ts fuel i st,
      (Transient.adaptLoop c env ts fuel i st).slnTimePrev =
        st.slnTimePrev ∧
      (Transient.adaptLoop c env ts fuel i st).prevWrites =
        st.prevWrites) ∧
    (∀ fuel S,
      (Transient.timeStep c env fuel S).slnTimePrev =
        (Transient.adaptLoop c env S.ts fuel 1
          (Transient.mkAdaptState env S)).slnTimeNew ∧
      (Transient.timeStep c env fuel S).prevWrites = S.prevWrites + 1) := by
  refine ⟨fun ts i st => Transient.tstep_prev_frame c env ts i st,
    fun ts fuel i st => Transient.tloop_prev_frame c env ts fuel i st,
    fun fuel S => ⟨rfl, ?_⟩⟩
  have h := (Transient.tloop_prev_frame c env S.ts fuel 1
    (Transient.mkAdaptState env S)).2
  show (Transient.adaptLoop c env S.ts fuel 1
    (Transient.mkAdaptState env S)).prevWrites + 1 = S.prevWrites + 1
  rw [h]
  rfl

namespace Hcurl

/-- If every solver call recorded so far received the all-zeros initial
vector of its reference space's length, the same holds after one more
step. -/
theorem hstep_solveCalls_zero (NDOF_STOP : ℕ) (env : HcurlEnv) (i : ℕ)
    (s : HcurlState)
    (h : ∀ p ∈ s.solveCalls, p.2 = List.replicate p.1 (0 : ℚ)) :
    ∀ p ∈ (hcurlStep NDOF_STOP env i s).solveCalls,
      p.2 = List.replicate p.1 (0 : ℚ) := by
  intro p hp
  have hc : (hcurlStep NDOF_STOP env i s).solveCalls =
      s.solveCalls ++ [(env.ndofRef i s.ndof,
        List.replicate (env.ndofRef i s.ndof) (0 : ℚ))] := rfl
  rw [hc] at hp
  rcases List.mem_append.mp hp with hp | hp
  · exact h p hp
  · simp only [List.mem_singleton] at hp
    subst hp
    rfl

/-- The invariant of `hstep_solveCalls_zero` is preserved by the whole
loop. -/
theorem hloop_solveCalls_zero (NDOF_STOP : ℕ) (env : HcurlEnv) :
    ∀ fuel i s,
      (∀ p ∈ s.solveCalls, p.2 = List.replicate p.1 (0 : ℚ)) →
      ∀ p ∈ (hcurlLoop NDOF_STOP env fuel i s).solveCalls,
        p.2 = List.replicate p.1 (0 : ℚ) := by
  intro fuel
  induction fuel with
  | zero => intro i s h; exact h
  | succ n ih =>
    intro i s h
    simp only [hcurlLoop]
    by_cases hd : (hcurlStep NDOF_STOP env i s).done
    · rw [if_pos hd]
      exact hstep_solveCalls_zero NDOF_STOP env i s h
    · rw [if_neg hd]
      exact ih (i + 1) _ (hstep_solveCalls_zero NDOF_STOP env i s h)

end Hcurl

/-- C10: the initial coefficient vector handed to the Newton solver at
every adaptivity step of the 05-hcurl loop is the all-zeros vector of the
reference space's degree-of-freedom count (`new complex[ndof_ref]` +
`memset 0`): each step records exactly one solver call whose initial
guess is `List.replicate ndof_ref 0`, and in any run starting from a
state whose recorded calls all have zero guesses, every recorded call has
the zero guess — the previous reference solution is never reused. -/
theorem C10_zero_newton_guess (NDOF_STOP : ℕ) (env : Hcurl.HcurlEnv) :
    (∀ i s, (Hcurl.hcurlStep NDOF_STOP env i s).solveCalls =
      s.solveCalls ++ [(env.ndofRef i s.ndof,
        List.replicate (env.ndofRef i s.ndof) (0 : ℚ))]) ∧
    (∀ fuel i s,
      (∀ p ∈ s.solveCalls, p.2 = List.replicate p.1 (0 : ℚ)) →
      ∀ p ∈ (Hcurl.hcurlLoop NDOF_STOP env fuel i s).solveCalls,
        p.2 = List.replicate p.1 (0 : ℚ)) :=
  ⟨fun _ _ => rfl, fun fuel i s h =>
    Hcurl.hloop_solveCalls_zero NDOF_STOP env fuel i s h⟩

/-- Witness for C10: the single call recorded by a one-step concrete run
carries the all-zeros guess. -/
theorem C10_zero_newton_guess_witness :
    ((2 : ℕ), List.replicate 2 (0 : ℚ)).2 =
      List.replicate ((2 : ℕ), List.replicate 2 (0 : ℚ)).1 (0 : ℚ) := by
  refine (C10_zero_newton_guess 100 envW).2 1 0 (Hcurl.initState 0) ?_
    ((2 : ℕ), List.replicate 2 (0 : ℚ)) ?_
  · intro p hp
    simp [Hcurl.initState] at hp
  · decide
